import Mathlib

/-!
Shallow embedding of the signal-safe process/terminal control subsystem of
GNU Emacs's `src/sysdep.c`, together with theorems settling the behavioural
claims about it.

Modelling conventions used throughout:

* A blocking primitive (`read`, `write`, `openat`, `waitpid`, `close`,
  `tcsetattr`) is driven by a *trace*: a list giving the outcome of each
  successive underlying call.  An outcome is either a successful return
  value (a nonnegative count or descriptor) or a failure, i.e. a return of
  -1 with `errno` set.
* `errno` values are natural numbers; only the distinctions the code makes
  (`EINTR`, `EINPROGRESS`, everything else) matter, so the concrete numbers
  are the conventional Linux ones.
* `maybe_quit` either returns normally (no quit pending) or performs a
  non-local exit; a pending quit is a boolean parameter `q`, and a wrapper
  run ends in a distinguished `quit` result when `maybe_quit` fires.
  `process_pending_signals` returns normally and is modelled as a no-op.
* When a trace is too short to drive the loop to an exit, the run result is
  a distinguished `stuck` value; no theorem draws conclusions from it.
* Wrapper runs also return the list of argument tuples passed to the
  underlying primitive, so that claims about what is requested from the
  operating system (lengths capped, pids positive, options passed) can be
  stated.
-/

/-- `errno` values, as natural numbers. -/
abbrev Errno := Nat

/-- Interrupted system call. -/
def EINTR : Errno := 4

/-- Operation now in progress. -/
def EINPROGRESS : Errno := 115

/-- Outcome of one call to an underlying blocking primitive: either a
successful return of value `v` (a nonnegative byte count, descriptor or
pid), or a failure, i.e. the call returned -1 and set `errno` to `e`. -/
inductive SysOutcome where
  | ok (v : Int)
  | err (e : Errno)
  deriving DecidableEq, Repr

/-- Result of one run of a retry wrapper: a successful return of `v`, a
failing return of -1 with `errno` equal to `e`, a non-local exit through
`maybe_quit`, or a run whose driving trace was exhausted. -/
inductive RunResult where
  | ok (v : Int)
  | fail (e : Errno)
  | quit
  | stuck
  deriving DecidableEq, Repr

/-- Whether a wrapper run ended in a failing return with `errno = EINTR`. -/
def failsEINTR : RunResult → Bool
  | RunResult.fail e => decide (e = EINTR)
  | _ => false

/-- Modelled from the spec: `MAX_RW_COUNT`, the platform-safe maximum number
of bytes to request from one underlying read or write call.  Its definition
is outside the excerpt (it lives in `lisp.h`); the reference implementation
uses `INT_MAX >> 18 << 18`.  No theorem below depends on the exact value. -/
def MAX_RW_COUNT : Int := (2 ^ 31 - 1) / 2 ^ 18 * 2 ^ 18

/-- `emacs_intr_read (fd, buf, nbyte, interruptible)` from sysdep.c: call
`maybe_quit` (when `interruptible`) and then `read`, repeating while the
read fails with `EINTR`; return the first non-`EINTR` result.  The source
asserts (`eassert`) the precondition `nbyte <= MAX_RW_COUNT` and passes
`nbyte` to every underlying `read` unchanged.  The second component of the
result lists the byte count requested from each `read` call made. -/
def emacs_intr_read (nbyte : Int) (interruptible : Bool) (q : Bool) :
    List SysOutcome → RunResult × List Int
  | [] => if interruptible && q then (RunResult.quit, []) else (RunResult.stuck, [])
  | o :: rest =>
    if interruptible && q then (RunResult.quit, [])
    else
      match o with
      | SysOutcome.ok v => (RunResult.ok v, [nbyte])
      | SysOutcome.err e =>
        if e = EINTR then
          let r := emacs_intr_read nbyte interruptible q rest
          (r.1, nbyte :: r.2)
        else (RunResult.fail e, [nbyte])

/-- `emacs_read`: `emacs_intr_read` with `interruptible = false`. -/
def emacs_read (q : Bool) (nbyte : Int) (tr : List SysOutcome) : RunResult × List Int :=
  emacs_intr_read nbyte false q tr

/-- `emacs_read_quit`: `emacs_intr_read` with `interruptible = true`. -/
def emacs_read_quit (q : Bool) (nbyte : Int) (tr : List SysOutcome) : RunResult × List Int :=
  emacs_intr_read nbyte true q tr

/-- `emacs_openat` (POSIX path): loop `sys_openat` while it fails with
`EINTR`, calling `maybe_quit` after each interrupted attempt.  The flag
adjustment (`O_BINARY` unless `O_TEXT`, plus `O_CLOEXEC`) does not affect
the retry behaviour and is modelled by `emacs_openat_flags` below. -/
def emacs_openat (q : Bool) : List SysOutcome → RunResult
  | [] => RunResult.stuck
  | o :: rest =>
    match o with
    | SysOutcome.ok fd => RunResult.ok fd
    | SysOutcome.err e =>
      if e = EINTR then
        if q then RunResult.quit else emacs_openat q rest
      else RunResult.fail e

/-- The flag adjustment performed by `emacs_openat` before its retry loop:
ensure `O_BINARY` unless `O_TEXT` is requested, and add `O_CLOEXEC`.  The
bit values are parameters because they come from system headers. -/
def emacs_openat_flags (oTEXT oBINARY oCLOEXEC oflags : Nat) : Nat :=
  let f := if oflags &&& oTEXT = 0 then oflags ||| oBINARY else oflags
  f ||| oCLOEXEC

/-- `emacs_open` on the POSIX path: `emacs_openat (AT_FDCWD, ...)`. -/
def emacs_open (q : Bool) (tr : List SysOutcome) : RunResult :=
  emacs_openat q tr

/-- Result of one run of `emacs_full_write`: a normal return of
`written` bytes (with `errnoSet = some e` exactly when the loop broke on a
write failing with the non-`EINTR` error `e`), a non-local exit through
`maybe_quit`, or an exhausted trace. -/
inductive WriteResult where
  | done (written : Int) (errnoSet : Option Errno)
  | quit
  | stuck
  deriving DecidableEq, Repr

/-- Whether a write run ended having set `errno = EINTR`. -/
def writeFailsEINTR : WriteResult → Bool
  | WriteResult.done _ (some e) => decide (e = EINTR)
  | _ => false

/-- `emacs_full_write (fd, buf, nbyte, interruptible)` from sysdep.c: while
bytes remain, request `min (remaining, MAX_RW_COUNT)` bytes from `write`;
on success advance, on `EINTR` retry (processing quits when
`0 < interruptible` and pending signals when `interruptible ≠ 0`), and on
any other error stop, returning the bytes written so far with `errno` set.
The second component lists the byte count requested from each `write`. -/
def emacs_full_write (interruptible : Int) (q : Bool) :
    Int → Int → List SysOutcome → WriteResult × List Int
  | nbyte, acc, [] =>
    if nbyte ≤ 0 then (WriteResult.done acc none, []) else (WriteResult.stuck, [])
  | nbyte, acc, o :: rest =>
    if nbyte ≤ 0 then (WriteResult.done acc none, [])
    else
      let req := min nbyte MAX_RW_COUNT
      match o with
      | SysOutcome.ok n =>
        let r := emacs_full_write interruptible q (nbyte - n) (acc + n) rest
        (r.1, req :: r.2)
      | SysOutcome.err e =>
        if e = EINTR then
          if 0 < interruptible ∧ q then (WriteResult.quit, [req])
          else
            let r := emacs_full_write interruptible q nbyte acc rest
            (r.1, req :: r.2)
        else (WriteResult.done acc (some e), [req])

/-- `emacs_write`: `emacs_full_write` with `interruptible = 0`. -/
def emacs_write (q : Bool) (nbyte : Int) (tr : List SysOutcome) : WriteResult × List Int :=
  emacs_full_write 0 q nbyte 0 tr

/-- `emacs_write_sig`: `emacs_full_write` with `interruptible = -1`
(process pending signals between retries, but not quits). -/
def emacs_write_sig (q : Bool) (nbyte : Int) (tr : List SysOutcome) : WriteResult × List Int :=
  emacs_full_write (-1) q nbyte 0 tr

/-- Well-formedness of a trace driving a write run starting with `nbyte`
bytes to go: every successful `write` reports between 0 and the number of
bytes that would be requested from it. -/
def wfWriteTrace : Int → List SysOutcome → Prop
  | _, [] => True
  | nbyte, SysOutcome.ok n :: rest =>
    0 ≤ n ∧ n ≤ min nbyte MAX_RW_COUNT ∧ wfWriteTrace (nbyte - n) rest
  | nbyte, SysOutcome.err _ :: rest => wfWriteTrace nbyte rest

/-- Result of one run of `get_child_status`: the returned pid (the child's
pid, 0, or -1), a non-local exit through `maybe_quit`, or an exhausted
trace. -/
inductive WaitRes where
  | ret (v : Int)
  | quit
  | stuck
  deriving DecidableEq, Repr

/-- The `WNOHANG` option bit of `waitpid`. -/
def WNOHANG : Int := 1

/-- `get_child_status (child, status, options, interruptible)` from
sysdep.c: loop { `maybe_quit` when interruptible; `pid = waitpid (child,
status, options)`; stop when `0 ≤ pid`; return `pid` (i.e. -1) when the
failure is not `EINTR` }.  The source asserts (`eassert`) the precondition
`child > 0` so that `waitpid` is never invoked with a nonpositive argument.
The second component lists the `(pid, options)` arguments of each `waitpid`
call made.  (The post-success nudge of `wait_reading_process_output`
through `input_available_clear_time` is a side effect on the event loop and
is not modelled.) -/
def get_child_status (child options : Int) (interruptible q : Bool) :
    List SysOutcome → WaitRes × List (Int × Int)
  | [] => if interruptible && q then (WaitRes.quit, []) else (WaitRes.stuck, [])
  | o :: rest =>
    if interruptible && q then (WaitRes.quit, [])
    else
      match o with
      | SysOutcome.ok p => (WaitRes.ret p, [(child, options)])
      | SysOutcome.err e =>
        if e = EINTR then
          let r := get_child_status child options interruptible q rest
          (r.1, (child, options) :: r.2)
        else (WaitRes.ret (-1), [(child, options)])

/-- Result of one run of `wait_for_termination`: its boolean return, a
non-local exit through `maybe_quit`, or an exhausted trace. -/
inductive BoolRes where
  | ret (b : Bool)
  | quit
  | stuck
  deriving DecidableEq, Repr

/-- `wait_for_termination (child, status, interruptible)`:
`0 <= get_child_status (child, status, 0, interruptible)`. -/
def wait_for_termination (child : Int) (interruptible q : Bool) (tr : List SysOutcome) :
    BoolRes × List (Int × Int) :=
  match get_child_status child 0 interruptible q tr with
  | (WaitRes.ret p, calls) => (BoolRes.ret (decide (0 ≤ p)), calls)
  | (WaitRes.quit, calls) => (BoolRes.quit, calls)
  | (WaitRes.stuck, calls) => (BoolRes.stuck, calls)

/-- `child_status_changed (child, status, options)`:
`get_child_status (child, status, WNOHANG | options, 0)`. -/
def child_status_changed (child options : Int) (tr : List SysOutcome) :
    WaitRes × List (Int × Int) :=
  get_child_status child (Int.lor WNOHANG options) false false tr

/-- Every successful `waitpid (child, ...)` outcome in the trace reports
either the child's pid or 0 (no status yet), never some other pid. -/
def wfWaitTrace (child : Int) (tr : List SysOutcome) : Prop :=
  ∀ v, SysOutcome.ok v ∈ tr → v = child ∨ v = 0

/-- The return value of the emulated `posix_close (fd, POSIX_CLOSE_RESTART)`
of sysdep.c given the underlying `close` outcome:
`close (fd) == 0 || errno == EINTR ? 0 : -1`. -/
def posix_close_ret : SysOutcome → Int
  | SysOutcome.ok _ => 0
  | SysOutcome.err e => if e = EINTR then 0 else -1

/-- The `errno` value after the emulated `posix_close`, given the value
before it: a failing `close` sets `errno`, a successful one leaves it. -/
def posix_close_errno (o : SysOutcome) (errno : Errno) : Errno :=
  match o with
  | SysOutcome.ok _ => errno
  | SysOutcome.err e => e

/-- `POSIX_CLOSE_RESTART` as defined by sysdep.c on hosts lacking it
(the emulated-`posix_close` configuration modelled here). -/
def POSIX_CLOSE_RESTART : Int := 1

/-- `emacs_close (fd)` from sysdep.c: loop { `r = posix_close (fd,
POSIX_CLOSE_RESTART)`; return 0 when `r == 0`; when `POSIX_CLOSE_RESTART`
is zero or `errno != EINTR`, return 0 when `errno == EINPROGRESS` and `r`
otherwise; otherwise retry }.  The trace lists the outcomes of the
successive underlying `close` calls; the result is `(return value, errno)`
(or `none` when the trace is exhausted) paired with the number of
underlying `close` calls made. -/
def emacs_close_run (errno : Errno) : List SysOutcome → Option (Int × Errno) × Nat
  | [] => (none, 0)
  | o :: rest =>
    let r := posix_close_ret o
    let e := posix_close_errno o errno
    if r = 0 then (some (0, e), 1)
    else if POSIX_CLOSE_RESTART = 0 ∨ e ≠ EINTR then
      (some (if e = EINPROGRESS then 0 else r, e), 1)
    else
      let k := emacs_close_run e rest
      (k.1, k.2 + 1)

/-- The fields of a `struct termios` that `emacs_set_tty` compares when it
reads settings back: the four flag words and the control-character array
(`memcmp` over its `NCCS` entries; the array is modelled as a list). -/
structure Termios where
  c_iflag : Nat
  c_oflag : Nat
  c_cflag : Nat
  c_lflag : Nat
  c_cc : List Nat
  deriving DecidableEq, Repr

/-- The readback comparison of `emacs_set_tty`: the settings now in force
match the requested ones on `c_iflag`, `c_oflag`, `c_cflag`, `c_lflag` and
the control characters.  (The whole structure is deliberately not compared,
because of reserved fields.) -/
def tty_match (nw settings : Termios) : Bool :=
  decide (nw.c_iflag = settings.c_iflag) && decide (nw.c_oflag = settings.c_oflag) &&
  decide (nw.c_cflag = settings.c_cflag) && decide (nw.c_lflag = settings.c_lflag) &&
  decide (nw.c_cc = settings.c_cc)

/-- Outcome of one iteration of the `emacs_set_tty` loop: either
`tcsetattr` failed with `errno = e`, or it succeeded and the subsequent
`tcgetattr` read back the settings `rb` (the all-zero structure when
`tcgetattr` itself failed, since its return value is not checked and the
buffer was zeroed beforehand). -/
inductive TtyStep where
  | setFail (e : Errno)
  | setOk (rb : Termios)
  deriving DecidableEq, Repr

/-- The bounded loop of `emacs_set_tty (fd, settings, flushp)` on the POSIX
path, with `fuel` iterations remaining (10 initially): call `tcsetattr`;
on `EINTR` use up an iteration and retry; on any other failure return -1;
on success read the attributes back and return 0 when they match the
request, otherwise use up an iteration and retry.  Falling off the end of
the loop returns 0.  `none` models a trace too short to drive the loop. -/
def emacs_set_tty_loop (settings : Termios) : Nat → List TtyStep → Option Int
  | 0, _ => some 0
  | _ + 1, [] => none
  | fuel + 1, step :: rest =>
    match step with
    | TtyStep.setFail e =>
      if e = EINTR then emacs_set_tty_loop settings fuel rest else some (-1)
    | TtyStep.setOk rb =>
      if tty_match rb settings then some 0 else emacs_set_tty_loop settings fuel rest

/-- `emacs_set_tty` runs its readback loop at most 10 times.  (The `flushp`
argument only selects `TCSAFLUSH` versus `TCSADRAIN` in each `tcsetattr`
call and does not influence the control flow.) -/
def emacs_set_tty (settings : Termios) (tr : List TtyStep) : Option Int :=
  emacs_set_tty_loop settings 10 tr

/-- A terminal-discipline operation performed on a tty device. -/
inductive TtyOp where
  | getTty (fd : Int)
  | setTty (fd : Int) (flushp : Bool)
  deriving DecidableEq, Repr

/-- `discard_tty_input` (POSIX interactive path) from sysdep.c: do nothing
when noninteractive; otherwise, for each tty of `tty_list` whose input
stream is open (the device is not suspended), call `emacs_get_tty` and then
`emacs_set_tty (fd, buf, 0)` — note the literal 0 for the `flushp`
argument.  A tty is modelled as its input descriptor paired with whether
its input stream is open; the result is the list of terminal operations
performed, in order. -/
def discard_tty_input (noninteractive : Bool) (ttys : List (Int × Bool)) : List TtyOp :=
  if noninteractive then []
  else
    ttys.foldr
      (fun t acc => if t.2 then TtyOp.getTty t.1 :: TtyOp.setTty t.1 false :: acc else acc)
      []

/-- A signal disposition: default action, ignored, the process-fatal
handler of init_signals, or some other inherited handler (`custom`). -/
inductive Handler where
  | dfl
  | ign
  | fatalProcess
  | custom (id : Nat)
  deriving DecidableEq, Repr

/-- `maybe_fatal_sig (sig)` from sysdep.c, as a map from the signal's
pre-existing disposition to its disposition afterwards: catch the signal
with the process-fatal action unless Emacs is noninteractive and the signal
was already ignored. -/
def maybe_fatal_sig (noninteractive : Bool) (old : Handler) : Handler :=
  let catch_sig := !noninteractive
  let catch_sig := catch_sig || decide (old ≠ Handler.ign)
  if catch_sig then Handler.fatalProcess else old

/-- The dispositions of the four signals whose installation C8 concerns. -/
structure SigDispositions where
  hup : Handler
  int : Handler
  term : Handler
  pipe : Handler
  deriving DecidableEq, Repr

/-- The fragment of `init_signals` that installs the termination signals
and SIGPIPE, in program order: `maybe_fatal_sig` for each of SIGHUP,
SIGINT and SIGTERM; `signal (SIGPIPE, SIG_IGN)` only when interactive (in
batch mode SIGPIPE is not touched); and then — further down the same
function — an unconditional `sigaction (SIGTERM, &process_fatal_action,
0)`, which overrides whatever `maybe_fatal_sig (SIGTERM)` left in place. -/
def init_signals_term (noninteractive : Bool) (s : SigDispositions) : SigDispositions :=
  let s1 : SigDispositions :=
    { hup := maybe_fatal_sig noninteractive s.hup
      int := maybe_fatal_sig noninteractive s.int
      term := maybe_fatal_sig noninteractive s.term
      pipe := if noninteractive then s.pipe else Handler.ign }
  { s1 with term := Handler.fatalProcess }

/-- The process-group/terminal state the job-control operations act on:
Emacs's own pid, its current process group, and the terminal's foreground
process group. -/
structure PGState where
  pid : Int
  pgid : Int
  ttyFg : Int
  deriving DecidableEq, Repr

/-- A job-control side effect, in program order. -/
inductive PGOp where
  | setpgidCall (pid pgid : Int)
  | blockInput
  | blockTtyOut
  | tcsetpgrpCall (fd pgrp : Int)
  | unblockTtyOut
  | unblockInput
  deriving DecidableEq, Repr

/-- `tcsetpgrp_without_stopping (fd, pgid)` from sysdep.c: with input
blocked and SIGTTOU blocked, set the terminal's foreground process group
to `pgid`. -/
def tcsetpgrp_without_stopping (fd pgid : Int) (st : PGState) : PGState × List PGOp :=
  ({ st with ttyFg := pgid },
   [PGOp.blockInput, PGOp.blockTtyOut, PGOp.tcsetpgrpCall fd pgid,
    PGOp.unblockTtyOut, PGOp.unblockInput])

/-- `narrow_foreground_group (fd)` from sysdep.c:
`if (inherited_pgroup && setpgid (0, 0) == 0)
   tcsetpgrp_without_stopping (fd, getpid ())`.
`setpgidOk` tells whether the `setpgid` call (made only when
`inherited_pgroup` is nonzero, thanks to `&&` short-circuiting) succeeds;
on success it puts the process in its own group. -/
def narrow_foreground_group (inherited_pgroup : Int) (setpgidOk : Bool) (fd : Int)
    (st : PGState) : PGState × List PGOp :=
  if inherited_pgroup ≠ 0 then
    if setpgidOk then
      let st1 := { st with pgid := st.pid }
      let r := tcsetpgrp_without_stopping fd st.pid st1
      (r.1, PGOp.setpgidCall 0 0 :: r.2)
    else (st, [PGOp.setpgidCall 0 0])
  else (st, [])

/-- `widen_foreground_group (fd)` from sysdep.c:
`if (inherited_pgroup && setpgid (0, inherited_pgroup) == 0)
   tcsetpgrp_without_stopping (fd, inherited_pgroup)`. -/
def widen_foreground_group (inherited_pgroup : Int) (setpgidOk : Bool) (fd : Int)
    (st : PGState) : PGState × List PGOp :=
  if inherited_pgroup ≠ 0 then
    if setpgidOk then
      let st1 := { st with pgid := inherited_pgroup }
      let r := tcsetpgrp_without_stopping fd inherited_pgroup st1
      (r.1, PGOp.setpgidCall 0 inherited_pgroup :: r.2)
    else (st, [PGOp.setpgidCall 0 inherited_pgroup])
  else (st, [])

/-- `LG_STACK_HEURISTIC` from `stack_overflow` in sysdep.c: log base 2 of
the ratio between the known stack size and the guard margin past its top. -/
def LG_STACK_HEURISTIC : Nat := 8

/-- `stack_overflow (siginfo)` from sysdep.c.  `siginfo` is `none` for a
null `siginfo_t` pointer; a fault address is modelled as an integer, with
0 the null address.  C's signed right shift `x >> 8` on the nonnegative
stack extent is division by `2 ^ 8`.  Returns whether the fault address
lies in the heuristic guard margin just past the stack top (with the
comparison mirrored when the stack grows downward, i.e. `top ≤ bot`). -/
def stack_overflow (attempt_recovery : Bool) (siginfo : Option Int)
    (stack_bottom stack_top : Int) : Bool :=
  if !attempt_recovery then false
  else
    match siginfo with
    | none => false
    | some addr =>
      if addr = 0 then false
      else
        let bot := stack_bottom
        let top := stack_top
        if bot < top then
          decide (0 ≤ addr - top) && decide (addr - top < (top - bot) / 2 ^ LG_STACK_HEURISTIC)
        else
          decide (0 ≤ top - addr) && decide (top - addr < (bot - top) / 2 ^ LG_STACK_HEURISTIC)

/-- What a SIGSEGV handler run does with the fault. -/
inductive SegvAction where
  | recover
  | fatal
  deriving DecidableEq, Repr

/-- `handle_sigsegv (sig, siginfo, arg)` from sysdep.c (the portable,
non-Android path, with thread forwarding compiled in): the fault is fatal
when a garbage collection is in progress or the handler runs off the main
thread; otherwise, when `stack_overflow` classifies the fault address as a
stack overflow, `siglongjmp` back to the command loop (`recover`); in
every other case `deliver_fatal_thread_signal` (`fatal`). -/
def handle_sigsegv (gc_in_progress onMainThread attempt_recovery : Bool)
    (siginfo : Option Int) (stack_bottom stack_top : Int) : SegvAction :=
  let fatal0 := gc_in_progress
  let fatal1 := fatal0 || !onMainThread
  if !fatal1 && stack_overflow attempt_recovery siginfo stack_bottom stack_top then
    SegvAction.recover
  else SegvAction.fatal

/-- What a signal-delivery entry point reports back, besides possibly not
returning at all: the `errno` value left in place and whether the handler
was run on this (the main) thread. -/
structure DeliverResult where
  errno : Errno
  handled_on_main : Bool
  deriving DecidableEq, Repr

/-- `deliver_process_signal (sig, handler)` from sysdep.c.  `handlerErr`
gives the `errno` value the invoked handler leaves given the one it finds;
`forwardErr` does the same for the forwarding path (`sigaddset`,
`pthread_sigmask`, `pthread_kill`).  The function saves `errno` on entry,
runs the handler on the main thread or forwards the signal otherwise, and
restores the saved `errno` before returning. -/
def deliver_process_signal (onMainThread : Bool) (handlerErr forwardErr : Errno → Errno)
    (errno0 : Errno) : DeliverResult :=
  let old_errno := errno0
  let errno1 := if onMainThread then errno0 else forwardErr errno0
  let _errno2 := if onMainThread then handlerErr errno1 else errno1
  { errno := old_errno, handled_on_main := onMainThread }

/-- `deliver_thread_signal (sig, handler)` from sysdep.c: on the main
thread, run the handler and restore the saved `errno`; on any other thread,
save a backtrace, reinstall the process-fatal action, signal the main
thread, and `sigsuspend` forever — the function never returns (`none`). -/
def deliver_thread_signal (onMainThread : Bool) (handlerErr : Errno → Errno)
    (errno0 : Errno) : Option DeliverResult :=
  let old_errno := errno0
  if onMainThread then
    let _errno1 := handlerErr errno0
    some { errno := old_errno, handled_on_main := true }
  else none

/-- C9: with `inherited_pgroup = 0` (Emacs started as its own process-group
leader), narrowing and widening the foreground group are no-ops — they
leave the state unchanged and perform no system calls — and narrowing twice
in a row is the same as narrowing once. -/
theorem c9_pgroup_noops (setpgidOk : Bool) (fd : Int) (st : PGState) :
    narrow_foreground_group 0 setpgidOk fd st = (st, [])
  ∧ widen_foreground_group 0 setpgidOk fd st = (st, [])
  ∧ narrow_foreground_group 0 setpgidOk fd (narrow_foreground_group 0 setpgidOk fd st).1
      = narrow_foreground_group 0 setpgidOk fd st := by
  refine ⟨?_, ?_, ?_⟩ <;> simp [narrow_foreground_group, widen_foreground_group]

/-- C10: `deliver_process_signal` returns with `errno` equal to its value
on entry, whatever the handler or the forwarding path do to `errno`; and
`deliver_thread_signal` either (on the main thread) returns with `errno`
restored the same way, or (on any other thread) never returns at all. -/
theorem c10_errno_preserved (onMainThread : Bool) (handlerErr forwardErr : Errno → Errno)
    (errno0 : Errno) :
    (deliver_process_signal onMainThread handlerErr forwardErr errno0).errno = errno0
  ∧ deliver_thread_signal onMainThread handlerErr errno0
      = (if onMainThread then some { errno := errno0, handled_on_main := true } else none) := by
  constructor
  · rfl
  · cases onMainThread <;> simp [deliver_thread_signal]

/-- C7 (the code at the failing input): in an interactive session with one
open, non-suspended tty (descriptor 0) and one suspended tty (descriptor
1), `discard_tty_input` performs a get followed by a set with the flush
option DISABLED (`flushp = 0`) on the open tty only, and does nothing in
batch mode.  With `flushp = 0` the set uses `TCSADRAIN`, which preserves
the pending input, contradicting the claimed (and self-documented) flush. -/
theorem c7_discard_tty_input_no_flush :
    discard_tty_input false [(0, true), (1, false)]
      = [TtyOp.getTty 0, TtyOp.setTty 0 false]
  ∧ discard_tty_input true [(0, true)] = [] := by
  exact ⟨rfl, rfl⟩

/-- C8 fails as stated, twice over, at the batch-mode start in which the
invoking environment ignored every one of the four signals: `init_signals`
does not touch SIGPIPE at all, so it stays ignored rather than reverting
to the default action; and the unconditional late
`sigaction (SIGTERM, &process_fatal_action, 0)` registers the
fatal-process handler for SIGTERM even though its pre-existing disposition
was SIG_IGN, against the claimed if-and-only-if. -/
theorem c8_counterexample :
    (init_signals_term true
        ⟨Handler.ign, Handler.ign, Handler.ign, Handler.ign⟩).pipe ≠ Handler.dfl
  ∧ (init_signals_term true
        ⟨Handler.ign, Handler.ign, Handler.ign, Handler.ign⟩).term
      = Handler.fatalProcess := by
  exact ⟨by decide, by decide⟩

/-- C8 (amended): when interactive, SIGPIPE is set to be ignored and
SIGHUP/SIGINT/SIGTERM get the fatal-process handler unconditionally; in
batch mode SIGPIPE's disposition is left unmodified (hence remains the
default action whenever it started there), SIGHUP and SIGINT get the
fatal-process handler exactly when their pre-existing disposition was not
SIG_IGN (otherwise they are left ignored), and SIGTERM ends up with the
fatal-process handler unconditionally, because the guarded registration
is followed later in `init_signals` by an unguarded one. -/
theorem c8_signal_installation (s : SigDispositions) :
    ((init_signals_term false s).pipe = Handler.ign
      ∧ (init_signals_term false s).hup = Handler.fatalProcess
      ∧ (init_signals_term false s).int = Handler.fatalProcess
      ∧ (init_signals_term false s).term = Handler.fatalProcess)
  ∧ ((init_signals_term true s).pipe = s.pipe
      ∧ (init_signals_term true s).hup
          = (if s.hup = Handler.ign then Handler.ign else Handler.fatalProcess)
      ∧ (init_signals_term true s).int
          = (if s.int = Handler.ign then Handler.ign else Handler.fatalProcess)
      ∧ (init_signals_term true s).term = Handler.fatalProcess) := by
  refine ⟨⟨?_, ?_, ?_, ?_⟩, ?_, ?_, ?_, ?_⟩ <;>
    simp only [init_signals_term, maybe_fatal_sig] <;>
    first
      | rfl
      | (split <;> simp_all [maybe_fatal_sig])

/-- Whether an `emacs_close` run returned -1 with `errno` equal to `EINTR`
or to `EINPROGRESS` (the two conditions C4 says are never surfaced as a
failure). -/
def closeFailsInterrupted : Option (Int × Errno) → Bool
  | some (r, e) => decide (r = -1) && (decide (e = EINTR) || decide (e = EINPROGRESS))
  | none => false

/-- `emacs_close` never surfaces -1 with `errno = EINTR` or
`errno = EINPROGRESS`, for any trace of underlying `close` outcomes. -/
theorem emacs_close_run_no_interrupted_failure (tr : List SysOutcome) :
    ∀ errno0 : Errno, closeFailsInterrupted (emacs_close_run errno0 tr).1 = false := by
  induction tr with
  | nil => intro errno0; simp [emacs_close_run, closeFailsInterrupted]
  | cons o rest ih =>
    intro errno0
    cases o with
    | ok v => simp [emacs_close_run, posix_close_ret, posix_close_errno, closeFailsInterrupted]
    | err e =>
      by_cases he : e = EINTR
      · simp [emacs_close_run, posix_close_ret, posix_close_errno, he, closeFailsInterrupted]
      · by_cases hp : e = EINPROGRESS
        · subst hp
          simp [emacs_close_run, posix_close_ret, posix_close_errno, he,
            POSIX_CLOSE_RESTART, closeFailsInterrupted]
        · simp [emacs_close_run, posix_close_ret, posix_close_errno, he, hp,
            POSIX_CLOSE_RESTART, closeFailsInterrupted]

/-- C4: on any nonempty trace, `emacs_close` performs exactly one
underlying `close` call — the descriptor is disposed of by that single
attempt, and no retry can ever close a descriptor reused by another
thread; a `close` failing with `EINTR` or with `EINPROGRESS` is reported
as success (return 0); and no run ever returns -1 with `errno` equal to
`EINTR` (nor to `EINPROGRESS`). -/
theorem c4_emacs_close (o : SysOutcome) (rest tr : List SysOutcome) (errno0 : Errno) :
    (emacs_close_run errno0 (o :: rest)).2 = 1
  ∧ (emacs_close_run errno0 (SysOutcome.err EINTR :: rest)).1 = some (0, EINTR)
  ∧ (emacs_close_run errno0 (SysOutcome.err EINPROGRESS :: rest)).1 = some (0, EINPROGRESS)
  ∧ closeFailsInterrupted (emacs_close_run errno0 tr).1 = false := by
  refine ⟨?_, ?_, ?_, emacs_close_run_no_interrupted_failure tr errno0⟩
  · cases o with
    | ok v => simp [emacs_close_run, posix_close_ret]
    | err e =>
      by_cases he : e = EINTR <;>
        simp [emacs_close_run, posix_close_ret, posix_close_errno, he, POSIX_CLOSE_RESTART]
  · simp [emacs_close_run, posix_close_ret, posix_close_errno]
  · simp [emacs_close_run, posix_close_ret, posix_close_errno, POSIX_CLOSE_RESTART,
      EINPROGRESS, EINTR]


/-- One interrupted read attempt, with no quit firing, leaves the run's
result unchanged apart from recording one more underlying call. -/
theorem emacs_intr_read_eintr_cons (nbyte : Int) (i q : Bool) (h : (i && q) = false)
    (rest : List SysOutcome) :
    emacs_intr_read nbyte i q (SysOutcome.err EINTR :: rest)
      = ((emacs_intr_read nbyte i q rest).1, nbyte :: (emacs_intr_read nbyte i q rest).2) := by
  simp [emacs_intr_read, h]

/-- A read preceded by `N` interrupted attempts: the run quits when a quit
is pending on an interruptible read, and otherwise returns the first
successful read's value, having requested exactly `nbyte` bytes from each
of the `N + 1` underlying calls. -/
theorem emacs_intr_read_repl_ok (N : Nat) (nbyte v : Int) (i q : Bool)
    (rest : List SysOutcome) :
    emacs_intr_read nbyte i q
        (List.replicate N (SysOutcome.err EINTR) ++ SysOutcome.ok v :: rest)
      = if i && q then (RunResult.quit, [])
        else (RunResult.ok v, List.replicate (N + 1) nbyte) := by
  induction N with
  | zero =>
    by_cases h : i && q <;> simp [emacs_intr_read, h, List.replicate]
  | succ n ih =>
    by_cases h : i && q
    · simp [List.replicate_succ, emacs_intr_read, h]
    · have h' : (i && q) = false := by simpa using h
      rw [List.replicate_succ, List.cons_append, emacs_intr_read_eintr_cons nbyte i q h', ih]
      simp [h', List.replicate_succ]

/-- `emacs_intr_read` never returns a failure with `errno = EINTR`. -/
theorem emacs_intr_read_no_eintr_fail (nbyte : Int) (i q : Bool) :
    ∀ tr : List SysOutcome, failsEINTR (emacs_intr_read nbyte i q tr).1 = false := by
  intro tr
  induction tr with
  | nil => by_cases h : i && q <;> simp [emacs_intr_read, h, failsEINTR]
  | cons o rest ih =>
    by_cases h : i && q
    · simp [emacs_intr_read, h, failsEINTR]
    · cases o with
      | ok v => simp [emacs_intr_read, h, failsEINTR]
      | err e =>
        by_cases he : e = EINTR
        · simpa [emacs_intr_read, h, he] using ih
        · simp [emacs_intr_read, h, he, failsEINTR]

/-- An `emacs_write` run ignores a block of `N` interrupted attempts put in
front of its trace: its result is that of the rest of the trace. -/
theorem emacs_write_replicate (N : Nat) (q : Bool) (nbyte : Int) (rest : List SysOutcome) :
    (emacs_write q nbyte (List.replicate N (SysOutcome.err EINTR) ++ rest)).1
      = (emacs_write q nbyte rest).1 := by
  induction N with
  | zero => simp
  | succ n ih =>
    by_cases h : nbyte ≤ 0
    · cases rest <;> simp [emacs_write, emacs_full_write, h, List.replicate_succ]
    · simp only [emacs_write, List.replicate_succ, List.cons_append, emacs_full_write, h,
        if_false, EINTR, reduceIte] at ih ⊢
      simpa using ih

/-- `emacs_full_write` never returns having set `errno = EINTR`. -/
theorem emacs_full_write_no_eintr (il : Int) (q : Bool) :
    ∀ (tr : List SysOutcome) (nbyte acc : Int),
      writeFailsEINTR (emacs_full_write il q nbyte acc tr).1 = false := by
  intro tr
  induction tr with
  | nil =>
    intro nbyte acc
    by_cases h : nbyte ≤ 0 <;> simp [emacs_full_write, h, writeFailsEINTR]
  | cons o rest ih =>
    intro nbyte acc
    by_cases h : nbyte ≤ 0
    · simp [emacs_full_write, h, writeFailsEINTR]
    · cases o with
      | ok n => simpa [emacs_full_write, h] using ih (nbyte - n) (acc + n)
      | err e =>
        by_cases he : e = EINTR
        · by_cases hq : 0 < il ∧ q
          · simp [emacs_full_write, h, he, hq, writeFailsEINTR]
          · simpa [emacs_full_write, h, he, hq] using ih nbyte acc
        · simp [emacs_full_write, h, he, writeFailsEINTR]

/-- One interrupted open attempt either fires a pending quit or leaves the
run's result unchanged. -/
theorem emacs_openat_eintr_cons (q : Bool) (rest : List SysOutcome) :
    emacs_openat q (SysOutcome.err EINTR :: rest)
      = if q then RunResult.quit else emacs_openat q rest := by
  simp [emacs_openat]

/-- An open preceded by `N` interrupted attempts, with no quit pending:
it returns the first successful attempt's descriptor. -/
theorem emacs_openat_repl_ok (N : Nat) (v : Int) (rest : List SysOutcome) :
    emacs_openat false (List.replicate N (SysOutcome.err EINTR) ++ SysOutcome.ok v :: rest)
      = RunResult.ok v := by
  induction N with
  | zero => simp [emacs_openat]
  | succ n ih =>
    rw [List.replicate_succ, List.cons_append, emacs_openat_eintr_cons]
    simpa using ih

/-- `emacs_openat` never returns a failure with `errno = EINTR`. -/
theorem emacs_openat_no_eintr_fail (q : Bool) :
    ∀ tr : List SysOutcome, failsEINTR (emacs_openat q tr) = false := by
  intro tr
  induction tr with
  | nil => simp [emacs_openat, failsEINTR]
  | cons o rest ih =>
    cases o with
    | ok v => simp [emacs_openat, failsEINTR]
    | err e =>
      by_cases he : e = EINTR
      · subst he
        rw [emacs_openat_eintr_cons]
        cases q
        · simpa using ih
        · simp [failsEINTR]
      · simp [emacs_openat, he, failsEINTR]

/-- C1: a trace on which the underlying read/write/open fails with `EINTR`
exactly `N` times and then proceeds gives `emacs_read` (and the
interruptible variant), `emacs_write` and `emacs_open` the very same
result as the trace with the interruptions removed; and none of the three
wrappers can ever return failure with `errno = EINTR` — a failing return
always carries a non-`EINTR` error. -/
theorem c1_retry_transparency :
    (∀ (N : Nat) (nbyte v : Int) (i q : Bool) (rest : List SysOutcome),
        (emacs_intr_read nbyte i q
            (List.replicate N (SysOutcome.err EINTR) ++ SysOutcome.ok v :: rest)).1
          = (emacs_intr_read nbyte i q (SysOutcome.ok v :: rest)).1)
  ∧ (∀ (N : Nat) (q : Bool) (nbyte : Int) (rest : List SysOutcome),
        (emacs_write q nbyte (List.replicate N (SysOutcome.err EINTR) ++ rest)).1
          = (emacs_write q nbyte rest).1)
  ∧ (∀ (N : Nat) (v : Int) (rest : List SysOutcome),
        emacs_open false (List.replicate N (SysOutcome.err EINTR) ++ SysOutcome.ok v :: rest)
          = emacs_open false (SysOutcome.ok v :: rest))
  ∧ (∀ (nbyte : Int) (i q : Bool) (tr : List SysOutcome),
        failsEINTR (emacs_intr_read nbyte i q tr).1 = false)
  ∧ (∀ (q : Bool) (nbyte : Int) (tr : List SysOutcome),
        writeFailsEINTR (emacs_write q nbyte tr).1 = false)
  ∧ (∀ (q : Bool) (tr : List SysOutcome), failsEINTR (emacs_open q tr) = false) := by
  refine ⟨?_, emacs_write_replicate, ?_, ?_, ?_, ?_⟩
  · intro N nbyte v i q rest
    rw [emacs_intr_read_repl_ok]
    by_cases h : i && q <;> simp [emacs_intr_read, h]
  · intro N v rest
    rw [emacs_open, emacs_openat_repl_ok, emacs_open]
    simp [emacs_openat]
  · exact fun nbyte i q tr => emacs_intr_read_no_eintr_fail nbyte i q tr
  · exact fun q nbyte tr => emacs_full_write_no_eintr 0 q tr nbyte 0
  · exact fun q tr => emacs_openat_no_eintr_fail q tr

/-- Every byte count `emacs_full_write` requests from the underlying
`write` is at most `MAX_RW_COUNT`. -/
theorem emacs_full_write_calls_le (il : Int) (q : Bool) :
    ∀ (tr : List SysOutcome) (nbyte acc : Int),
      ∀ r ∈ (emacs_full_write il q nbyte acc tr).2, r ≤ MAX_RW_COUNT := by
  intro tr
  induction tr with
  | nil =>
    intro nbyte acc r hr
    by_cases h : nbyte ≤ 0 <;> simp [emacs_full_write, h] at hr
  | cons o rest ih =>
    intro nbyte acc r hr
    by_cases h : nbyte ≤ 0
    · simp [emacs_full_write, h] at hr
    · cases o with
      | ok n =>
        simp only [emacs_full_write, h, if_false, List.mem_cons] at hr
        rcases hr with hr | hr
        · rw [hr]; exact min_le_right _ _
        · exact ih (nbyte - n) (acc + n) r hr
      | err e =>
        by_cases he : e = EINTR
        · by_cases hq : 0 < il ∧ q
          · simp only [emacs_full_write, h, he, hq, and_self, if_false, if_true,
              List.mem_singleton, reduceIte] at hr
            rw [hr]; exact min_le_right _ _
          · simp only [emacs_full_write, h, he, hq, if_false, reduceIte, List.mem_cons] at hr
            rcases hr with hr | hr
            · rw [hr]; exact min_le_right _ _
            · exact ih nbyte acc r hr
        · simp only [emacs_full_write, h, he, if_false, reduceIte, List.mem_singleton] at hr
          rw [hr]; exact min_le_right _ _

/-- Invariant of the `emacs_full_write` loop on well-formed traces: a
normal return wrote between `acc` (the bytes written so far) and
`acc + nbyte` bytes, wrote everything exactly when no error was recorded,
and any recorded error is non-`EINTR`. -/
theorem emacs_full_write_done (il : Int) (q : Bool) :
    ∀ (tr : List SysOutcome) (nbyte acc w : Int) (es : Option Errno),
      0 ≤ nbyte → wfWriteTrace nbyte tr →
      (emacs_full_write il q nbyte acc tr).1 = WriteResult.done w es →
      acc ≤ w ∧ w ≤ acc + nbyte ∧ (es = none ↔ w = acc + nbyte) ∧
        ∀ e, es = some e → e ≠ EINTR := by
  intro tr
  induction tr with
  | nil =>
    intro nbyte acc w es h0 hwf hrun
    by_cases h : nbyte ≤ 0
    · have hn : nbyte = 0 := le_antisymm h h0
      subst hn
      simp only [emacs_full_write, le_refl, if_true, WriteResult.done.injEq] at hrun
      obtain ⟨rfl, rfl⟩ := hrun
      refine ⟨le_refl _, by omega, by simp, by simp⟩
    · simp [emacs_full_write, h] at hrun
  | cons o rest ih =>
    intro nbyte acc w es h0 hwf hrun
    by_cases h : nbyte ≤ 0
    · have hn : nbyte = 0 := le_antisymm h h0
      subst hn
      simp only [emacs_full_write, le_refl, if_true, WriteResult.done.injEq] at hrun
      obtain ⟨rfl, rfl⟩ := hrun
      refine ⟨le_refl _, by omega, by simp, by simp⟩
    · cases o with
      | ok n =>
        obtain ⟨hn0, hnle, hwf'⟩ := hwf
        have hnn : n ≤ nbyte := le_trans hnle (min_le_left _ _)
        simp only [emacs_full_write, h, if_false] at hrun
        obtain ⟨h1, h2, h3, h4⟩ :=
          ih (nbyte - n) (acc + n) w es (by omega) hwf' hrun
        refine ⟨by omega, by omega, ?_, h4⟩
        rw [h3]
        constructor <;> intro hh <;> omega
      | err e =>
        by_cases he : e = EINTR
        · by_cases hq : 0 < il ∧ q
          · simp [emacs_full_write, h, he, hq] at hrun
          · simp only [emacs_full_write, h, he, hq, if_false, reduceIte] at hrun
            exact ih nbyte acc w es h0 hwf hrun
        · simp only [emacs_full_write, h, he, if_false, reduceIte,
            WriteResult.done.injEq] at hrun
          obtain ⟨rfl, rfl⟩ := hrun
          refine ⟨le_refl _, by omega, ?_, ?_⟩
          · constructor <;> intro hh
            · exact absurd hh (by simp)
            · omega
          · intro e' he'
            simp only [Option.some.injEq] at he'
            subst he'
            exact he

/-- Every underlying `read` call of an `emacs_intr_read` run requests
exactly `nbyte` bytes — the length is passed through uncapped. -/
theorem emacs_intr_read_calls (nbyte : Int) (i q : Bool) :
    ∀ tr : List SysOutcome, ∀ r ∈ (emacs_intr_read nbyte i q tr).2, r = nbyte := by
  intro tr
  induction tr with
  | nil => intro r hr; by_cases h : i && q <;> simp [emacs_intr_read, h] at hr
  | cons o rest ih =>
    intro r hr
    by_cases h : i && q
    · simp [emacs_intr_read, h] at hr
    · cases o with
      | ok v =>
        simp only [emacs_intr_read, h, Bool.false_eq_true, if_false,
          List.mem_singleton] at hr
        exact hr
      | err e =>
        by_cases he : e = EINTR
        · simp only [emacs_intr_read, h, he, Bool.false_eq_true, if_false, reduceIte,
            List.mem_cons] at hr
          rcases hr with hr | hr
          · exact hr
          · exact ih r hr
        · simp only [emacs_intr_read, h, he, Bool.false_eq_true, if_false, reduceIte,
            List.mem_singleton] at hr
          exact hr

/-- C5 fails as stated for the read wrapper: called with
`nbyte = MAX_RW_COUNT + 1`, `emacs_read` requests `MAX_RW_COUNT + 1` bytes
from the underlying `read` — the length is not capped (the source merely
asserts the caller never passes such a length). -/
theorem c5_counterexample :
    (emacs_read false (MAX_RW_COUNT + 1) [SysOutcome.ok 0]).2 = [MAX_RW_COUNT + 1]
  ∧ MAX_RW_COUNT < MAX_RW_COUNT + 1 := by
  exact ⟨rfl, lt_add_one _⟩

/-- C5 (amended): the write wrapper caps every underlying call's requested
length to `min (remaining, MAX_RW_COUNT)` and loops until the full `nbyte`
bytes are written or a non-`EINTR` error occurs, returning the number of
bytes written, which is less than `nbyte` exactly when an error was
recorded; the read wrapper returns as soon as one underlying read
succeeds (possibly with fewer than `nbyte` bytes), and it passes `nbyte`
to each underlying read uncapped, so its requests stay within
`MAX_RW_COUNT` only under the asserted precondition
`nbyte ≤ MAX_RW_COUNT`. -/
theorem c5_rw_lengths :
    (∀ (q : Bool) (nbyte : Int) (tr : List SysOutcome),
        ∀ r ∈ (emacs_write q nbyte tr).2, r ≤ MAX_RW_COUNT)
  ∧ (∀ (q : Bool) (nbyte w : Int) (es : Option Errno) (tr : List SysOutcome),
        0 ≤ nbyte → wfWriteTrace nbyte tr →
        (emacs_write q nbyte tr).1 = WriteResult.done w es →
        0 ≤ w ∧ w ≤ nbyte ∧ (es = none ↔ w = nbyte) ∧ ∀ e, es = some e → e ≠ EINTR)
  ∧ (∀ (N : Nat) (nbyte v : Int) (rest : List SysOutcome),
        emacs_read false nbyte
            (List.replicate N (SysOutcome.err EINTR) ++ SysOutcome.ok v :: rest)
          = (RunResult.ok v, List.replicate (N + 1) nbyte))
  ∧ (∀ (nbyte : Int) (i q : Bool) (tr : List SysOutcome),
        ∀ r ∈ (emacs_intr_read nbyte i q tr).2, r = nbyte)
  ∧ (∀ (nbyte : Int) (i q : Bool) (tr : List SysOutcome), nbyte ≤ MAX_RW_COUNT →
        ∀ r ∈ (emacs_intr_read nbyte i q tr).2, r ≤ MAX_RW_COUNT) := by
  refine ⟨?_, ?_, ?_, ?_, ?_⟩
  · exact fun q nbyte tr => emacs_full_write_calls_le 0 q tr nbyte 0
  · intro q nbyte w es tr h0 hwf hrun
    obtain ⟨h1, h2, h3, h4⟩ := emacs_full_write_done 0 q tr nbyte 0 w es h0 hwf hrun
    refine ⟨h1, by omega, ?_, h4⟩
    rw [h3]
    constructor <;> intro hh <;> omega
  · intro N nbyte v rest
    rw [emacs_read, emacs_intr_read_repl_ok]
    simp
  · exact fun nbyte i q tr => emacs_intr_read_calls nbyte i q tr
  · intro nbyte i q tr hle r hr
    rw [emacs_intr_read_calls nbyte i q tr r hr]
    exact hle

/-- Witness for `c5_rw_lengths` at concrete inputs: writing 1 byte through
the trace `[ok 1]` requests 1 byte (within the cap) and returns 1 with no
error recorded, and a read of 2 bytes requests exactly 2 from each call. -/
theorem c5_rw_lengths_witness :
    (1 : Int) ≤ MAX_RW_COUNT
  ∧ (0 ≤ (1 : Int) ∧ (1 : Int) ≤ 1 ∧ ((none : Option Errno) = none ↔ (1 : Int) = 1) ∧
      ∀ e : Errno, (none : Option Errno) = some e → e ≠ EINTR)
  ∧ (2 : Int) = 2
  ∧ (2 : Int) ≤ MAX_RW_COUNT := by
  refine ⟨?_, ?_, ?_, ?_⟩
  · exact c5_rw_lengths.1 false 1 [SysOutcome.ok 1] 1 (by decide)
  · exact c5_rw_lengths.2.1 false 1 1 none [SysOutcome.ok 1] (by decide)
      (by constructor; · decide
          constructor; · decide
          trivial)
      (by decide)
  · exact c5_rw_lengths.2.2.2.1 2 false false [SysOutcome.err 7] 2 (by decide)
  · exact c5_rw_lengths.2.2.2.2 2 false false [SysOutcome.err 7] (by decide) 2 (by decide)

/-- Characterization of the `stack_overflow` heuristic: it holds exactly
when recovery is enabled, the siginfo and the fault address are non-null,
and the address lies at or above the stack top but strictly below the
margin of one 256th of the stack extent past it (mirrored when the stack
grows the other way). -/
theorem stack_overflow_iff (attempt : Bool) (si : Option Int) (bot top : Int) :
    stack_overflow attempt si bot top = true ↔
      attempt = true ∧ ∃ addr, si = some addr ∧ addr ≠ 0 ∧
        ((bot < top ∧ 0 ≤ addr - top ∧ addr - top < (top - bot) / 2 ^ 8) ∨
         (¬bot < top ∧ 0 ≤ top - addr ∧ top - addr < (bot - top) / 2 ^ 8)) := by
  cases attempt with
  | false => simp [stack_overflow]
  | true =>
    cases si with
    | none => simp [stack_overflow]
    | some addr =>
      by_cases ha : addr = 0
      · subst ha
        simp [stack_overflow]
      · by_cases hbt : bot < top <;>
          simp [stack_overflow, ha, hbt, LG_STACK_HEURISTIC]

/-- C2: the SIGSEGV handler transfers control back to the command loop
exactly when no garbage collection is in progress, the handler runs on the
main thread, recovery is enabled, the siginfo and its fault address are
non-null, and the fault address is at least the stack top but strictly
less than the stack top plus the extent shifted right by 8 (mirrored for
the other growth direction); in every other case the fault is handled as a
fatal thread signal.  The final two conjuncts exercise the strict upper
boundary: with `bot = 0`, `top = 2^20`, the margin is `2^12`, and the
address `top + 2^12` is fatal while `top + 2^12 - 1` recovers. -/
theorem c2_sigsegv_classification (gc onMain attempt : Bool) (si : Option Int)
    (bot top : Int) :
    (handle_sigsegv gc onMain attempt si bot top = SegvAction.recover ↔
      gc = false ∧ onMain = true ∧ attempt = true ∧ ∃ addr, si = some addr ∧ addr ≠ 0 ∧
        ((bot < top ∧ 0 ≤ addr - top ∧ addr - top < (top - bot) / 2 ^ 8) ∨
         (¬bot < top ∧ 0 ≤ top - addr ∧ top - addr < (bot - top) / 2 ^ 8)))
  ∧ (handle_sigsegv gc onMain attempt si bot top = SegvAction.recover ∨
     handle_sigsegv gc onMain attempt si bot top = SegvAction.fatal)
  ∧ handle_sigsegv false true true (some (2 ^ 20 + 2 ^ 12)) 0 (2 ^ 20) = SegvAction.fatal
  ∧ handle_sigsegv false true true (some (2 ^ 20 + 2 ^ 12 - 1)) 0 (2 ^ 20)
      = SegvAction.recover := by
  have hsq : handle_sigsegv gc onMain attempt si bot top
      = if !(gc || !onMain) && stack_overflow attempt si bot top then SegvAction.recover
        else SegvAction.fatal := rfl
  refine ⟨?_, ?_, by decide, by decide⟩
  · rw [hsq]
    have hif : ((if !(gc || !onMain) && stack_overflow attempt si bot top
          then SegvAction.recover else SegvAction.fatal) = SegvAction.recover) ↔
        (!(gc || !onMain) && stack_overflow attempt si bot top) = true := by
      split <;> simp_all
    rw [hif, Bool.and_eq_true, stack_overflow_iff]
    cases gc <;> cases onMain <;> simp
  · rw [hsq]
    split
    · exact Or.inl rfl
    · exact Or.inr rfl

/-- One interrupted `waitpid` attempt, with no quit firing, leaves the
run's result unchanged apart from recording one more call. -/
theorem get_child_status_eintr_cons (child options : Int) (i q : Bool)
    (h : (i && q) = false) (rest : List SysOutcome) :
    get_child_status child options i q (SysOutcome.err EINTR :: rest)
      = ((get_child_status child options i q rest).1,
         (child, options) :: (get_child_status child options i q rest).2) := by
  simp [get_child_status, h]

/-- `get_child_status` ignores a block of `N` interrupted `waitpid`
attempts put in front of its trace. -/
theorem get_child_status_repl (N : Nat) (child options : Int) (i q : Bool)
    (rest : List SysOutcome) :
    (get_child_status child options i q
        (List.replicate N (SysOutcome.err EINTR) ++ rest)).1
      = (get_child_status child options i q rest).1 := by
  induction N with
  | zero => simp
  | succ n ih =>
    by_cases h : i && q
    · have hq : ∀ tr : List SysOutcome,
          (get_child_status child options i q tr).1 = WaitRes.quit := by
        intro tr; cases tr <;> simp [get_child_status, h]
      rw [hq, hq]
    · have h' : (i && q) = false := by simpa using h
      rw [List.replicate_succ, List.cons_append,
        get_child_status_eintr_cons child options i q h']
      exact ih

/-- Every `waitpid` call a `get_child_status` run makes passes exactly the
pid and options it was given. -/
theorem get_child_status_calls (child options : Int) (i q : Bool) :
    ∀ tr : List SysOutcome,
      ∀ c ∈ (get_child_status child options i q tr).2, c = (child, options) := by
  intro tr
  induction tr with
  | nil =>
    intro c hc
    by_cases h : i && q <;> simp [get_child_status, h] at hc
  | cons o rest ih =>
    intro c hc
    by_cases h : i && q
    · simp [get_child_status, h] at hc
    · cases o with
      | ok v =>
        simp only [get_child_status, h, Bool.false_eq_true, if_false,
          List.mem_singleton] at hc
        exact hc
      | err e =>
        by_cases he : e = EINTR
        · simp only [get_child_status, h, he, Bool.false_eq_true, if_false, reduceIte,
            List.mem_cons] at hc
          rcases hc with hc | hc
          · exact hc
          · exact ih c hc
        · simp only [get_child_status, h, he, Bool.false_eq_true, if_false, reduceIte,
            List.mem_singleton] at hc
          exact hc

/-- On a trace whose successful `waitpid` outcomes are all nonnegative (as
`waitpid` guarantees), a negative return from `get_child_status` can only
come from a `waitpid` failure with a non-`EINTR` error, reached after
nothing but interrupted attempts. -/
theorem get_child_status_neg (child options : Int) (i q : Bool) :
    ∀ tr : List SysOutcome, (∀ v : Int, SysOutcome.ok v ∈ tr → 0 ≤ v) →
      ∀ p : Int, (get_child_status child options i q tr).1 = WaitRes.ret p → p < 0 →
        ∃ pre e post, tr = pre ++ SysOutcome.err e :: post ∧ e ≠ EINTR ∧
          ∀ x ∈ pre, x = SysOutcome.err EINTR := by
  intro tr
  induction tr with
  | nil =>
    intro _ p hp _
    by_cases h : i && q <;> simp [get_child_status, h] at hp
  | cons o rest ih =>
    intro hwf p hp hneg
    by_cases h : i && q
    · simp [get_child_status, h] at hp
    · cases o with
      | ok v =>
        simp only [get_child_status, h, Bool.false_eq_true, if_false,
          WaitRes.ret.injEq] at hp
        subst hp
        exact absurd (hwf v (by simp)) (by omega)
      | err e =>
        by_cases he : e = EINTR
        · subst he
          rw [get_child_status_eintr_cons child options i q (by simpa using h)] at hp
          obtain ⟨pre, e', post, hdec, he', hpre⟩ :=
            ih (fun v hv => hwf v (List.mem_cons_of_mem _ hv)) p hp hneg
          refine ⟨SysOutcome.err EINTR :: pre, e', post, by rw [hdec]; rfl, he', ?_⟩
          intro x hx
          rcases List.mem_cons.mp hx with hx | hx
          · exact hx
          · exact hpre x hx
        · exact ⟨[], e, rest, rfl, he, by simp⟩

/-- `wait_for_termination`'s returned value is determined by
`get_child_status` on the same trace with options 0, and its call list is
the same. -/
theorem wait_for_termination_eq (child : Int) (i q : Bool) (tr : List SysOutcome) :
    (wait_for_termination child i q tr).1
      = (match (get_child_status child 0 i q tr).1 with
         | WaitRes.ret p => BoolRes.ret (decide (0 ≤ p))
         | WaitRes.quit => BoolRes.quit
         | WaitRes.stuck => BoolRes.stuck)
  ∧ (wait_for_termination child i q tr).2 = (get_child_status child 0 i q tr).2 := by
  rcases hg : get_child_status child 0 i q tr with ⟨w, calls⟩
  cases w <;> simp [wait_for_termination, hg]

/-- C3: `wait_for_termination`'s result is unchanged by any number of
interrupted `waitpid` attempts (it retries EINTR indefinitely); on traces
where `waitpid` behaves (nonnegative successes), it returns false only
when `waitpid` failed with a non-`EINTR` error; the blocking wait passes
`(child, 0)` and the poll passes `(child, WNOHANG | options)` to every
`waitpid` call — always the strictly positive child pid, never a wildcard;
and the poll returns the success value `v` (the child's pid when status
changed, 0 when not) or -1 (negative) on a non-`EINTR` `waitpid`
failure. -/
theorem c3_child_wait :
    (∀ (N : Nat) (child : Int) (i q : Bool) (rest : List SysOutcome),
        (wait_for_termination child i q
            (List.replicate N (SysOutcome.err EINTR) ++ rest)).1
          = (wait_for_termination child i q rest).1)
  ∧ (∀ (child : Int) (i q : Bool) (tr : List SysOutcome),
        (∀ v : Int, SysOutcome.ok v ∈ tr → 0 ≤ v) →
        (wait_for_termination child i q tr).1 = BoolRes.ret false →
        ∃ pre e post, tr = pre ++ SysOutcome.err e :: post ∧ e ≠ EINTR ∧
          ∀ x ∈ pre, x = SysOutcome.err EINTR)
  ∧ (∀ (child : Int) (i q : Bool) (tr : List SysOutcome), 0 < child →
        ∀ c ∈ (wait_for_termination child i q tr).2, c = (child, 0) ∧ 0 < c.1)
  ∧ (∀ (child options : Int) (tr : List SysOutcome), 0 < child →
        ∀ c ∈ (child_status_changed child options tr).2,
          c = (child, Int.lor WNOHANG options) ∧ 0 < c.1)
  ∧ (∀ (N : Nat) (child options v : Int) (rest : List SysOutcome),
        (child_status_changed child options
            (List.replicate N (SysOutcome.err EINTR) ++ SysOutcome.ok v :: rest)).1
          = WaitRes.ret v)
  ∧ (∀ (N : Nat) (child options : Int) (e : Errno) (rest : List SysOutcome), e ≠ EINTR →
        (child_status_changed child options
            (List.replicate N (SysOutcome.err EINTR) ++ SysOutcome.err e :: rest)).1
          = WaitRes.ret (-1)) := by
  refine ⟨?_, ?_, ?_, ?_, ?_, ?_⟩
  · intro N child i q rest
    rw [(wait_for_termination_eq child i q _).1, (wait_for_termination_eq child i q rest).1,
      get_child_status_repl]
  · intro child i q tr hwf hret
    rw [(wait_for_termination_eq child i q tr).1] at hret
    rcases hg : (get_child_status child 0 i q tr).1 with p | _ | _
    · rw [hg] at hret
      simp only [BoolRes.ret.injEq, decide_eq_false_iff_not, not_le] at hret
      exact get_child_status_neg child 0 i q tr hwf p hg hret
    · rw [hg] at hret
      exact absurd hret (by simp)
    · rw [hg] at hret
      exact absurd hret (by simp)
  · intro child i q tr hc c hmem
    rw [(wait_for_termination_eq child i q tr).2] at hmem
    have := get_child_status_calls child 0 i q tr c hmem
    exact ⟨this, by rw [this]; exact hc⟩
  · intro child options tr hc c hmem
    have := get_child_status_calls child (Int.lor WNOHANG options) false false tr c hmem
    exact ⟨this, by rw [this]; exact hc⟩
  · intro N child options v rest
    rw [child_status_changed, get_child_status_repl]
    simp [get_child_status]
  · intro N child options e rest he
    rw [child_status_changed, get_child_status_repl]
    simp [get_child_status, he]

/-- Witness for `c3_child_wait` at concrete inputs: pid 1 with a trace
failing once with error 7 makes the blocking wait return false through a
non-`EINTR` failure; the calls pass `(1, 0)` (blocking) and
`(1, WNOHANG)` (poll); and the poll surfaces -1 on the failing trace. -/
theorem c3_child_wait_witness :
    (∃ pre e post, [SysOutcome.err 7] = pre ++ SysOutcome.err e :: post ∧ e ≠ EINTR ∧
        ∀ x ∈ pre, x = SysOutcome.err EINTR)
  ∧ (((1 : Int), (0 : Int)) = (1, 0) ∧ (0 : Int) < ((1 : Int), (0 : Int)).1)
  ∧ (((1 : Int), Int.lor WNOHANG 0) = (1, Int.lor WNOHANG 0)
      ∧ (0 : Int) < ((1 : Int), Int.lor WNOHANG 0).1)
  ∧ (child_status_changed 1 0
        (List.replicate 0 (SysOutcome.err EINTR) ++ SysOutcome.err 7 :: [])).1
      = WaitRes.ret (-1) := by
  refine ⟨?_, ?_, ?_, ?_⟩
  · exact c3_child_wait.2.1 1 false false [SysOutcome.err 7] (by simp) (by decide)
  · exact c3_child_wait.2.2.1 1 false false [SysOutcome.ok 1] (by decide) (1, 0) (by decide)
  · exact c3_child_wait.2.2.2.1 1 0 [SysOutcome.ok 1] (by decide)
      (1, Int.lor WNOHANG 0) (by decide)
  · exact c3_child_wait.2.2.2.2.2 0 1 0 7 [] (by decide)

/-- A loop step `emacs_set_tty` will retry rather than exit on: an
interrupted `tcsetattr`, or a successful one whose readback does not match
the requested settings. -/
def retryStep (settings : Termios) (st : TtyStep) : Prop :=
  st = TtyStep.setFail EINTR ∨ ∃ rb, st = TtyStep.setOk rb ∧ tty_match rb settings = false

/-- The `emacs_set_tty` loop can only return 0, return -1, or exhaust its
trace. -/
theorem emacs_set_tty_loop_cases (settings : Termios) :
    ∀ (fuel : Nat) (tr : List TtyStep),
      emacs_set_tty_loop settings fuel tr = some 0 ∨
      emacs_set_tty_loop settings fuel tr = some (-1) ∨
      emacs_set_tty_loop settings fuel tr = none := by
  intro fuel
  induction fuel with
  | zero => intro tr; exact Or.inl rfl
  | succ k ih =>
    intro tr
    cases tr with
    | nil => exact Or.inr (Or.inr rfl)
    | cons st rest =>
      cases st with
      | setFail e =>
        by_cases he : e = EINTR
        · simpa [emacs_set_tty_loop, he] using ih rest
        · simp [emacs_set_tty_loop, he]
      | setOk rb =>
        by_cases hm : tty_match rb settings
        · simp [emacs_set_tty_loop, hm]
        · simpa [emacs_set_tty_loop, hm] using ih rest

/-- The `emacs_set_tty` loop consumes at most `fuel` trace steps. -/
theorem emacs_set_tty_loop_take (settings : Termios) :
    ∀ (fuel : Nat) (tr : List TtyStep),
      emacs_set_tty_loop settings fuel tr
        = emacs_set_tty_loop settings fuel (tr.take fuel) := by
  intro fuel
  induction fuel with
  | zero => intro tr; rfl
  | succ k ih =>
    intro tr
    cases tr with
    | nil => rfl
    | cons st rest =>
      cases st with
      | setFail e =>
        by_cases he : e = EINTR <;>
          simp [emacs_set_tty_loop, he, List.take_succ_cons, ih rest]
      | setOk rb =>
        by_cases hm : tty_match rb settings <;>
          simp [emacs_set_tty_loop, hm, List.take_succ_cons, ih rest]

/-- The `emacs_set_tty` loop returns -1 exactly when, within its fuel, the
trace reaches a `tcsetattr` failure with a non-`EINTR` error after nothing
but retryable steps. -/
theorem emacs_set_tty_loop_neg_iff (settings : Termios) :
    ∀ (tr : List TtyStep) (fuel : Nat),
      emacs_set_tty_loop settings fuel tr = some (-1) ↔
        ∃ pre e post, tr = pre ++ TtyStep.setFail e :: post ∧ e ≠ EINTR ∧
          pre.length < fuel ∧ ∀ st ∈ pre, retryStep settings st := by
  intro tr
  induction tr with
  | nil =>
    intro fuel
    constructor
    · intro h
      cases fuel <;> simp [emacs_set_tty_loop] at h
    · rintro ⟨pre, e, post, habs, -, -, -⟩
      exact absurd habs (by simp)
  | cons st rest ih =>
    intro fuel
    cases fuel with
    | zero =>
      constructor
      · intro h
        simp [emacs_set_tty_loop] at h
      · rintro ⟨pre, e, post, -, -, hlen, -⟩
        omega
    | succ k =>
      cases st with
      | setFail e0 =>
        by_cases he : e0 = EINTR
        · subst he
          rw [show emacs_set_tty_loop settings (k + 1) (TtyStep.setFail EINTR :: rest)
              = emacs_set_tty_loop settings k rest from by simp [emacs_set_tty_loop],
            ih k]
          constructor
          · rintro ⟨pre, e, post, hdec, he', hlen, hpre⟩
            refine ⟨TtyStep.setFail EINTR :: pre, e, post, by rw [hdec]; rfl, he', ?_, ?_⟩
            · simpa using Nat.succ_lt_succ hlen
            · intro x hx
              rcases List.mem_cons.mp hx with hx | hx
              · rw [hx]; exact Or.inl rfl
              · exact hpre x hx
          · rintro ⟨pre, e, post, hdec, he', hlen, hpre⟩
            cases pre with
            | nil =>
              simp only [List.nil_append, List.cons.injEq, TtyStep.setFail.injEq] at hdec
              exact absurd hdec.1.symm he'
            | cons x pre' =>
              simp only [List.cons_append, List.cons.injEq] at hdec
              obtain ⟨hx, hdec'⟩ := hdec
              refine ⟨pre', e, post, hdec', he', ?_, ?_⟩
              · have := hlen
                simp only [List.length_cons] at this
                omega
              · intro y hy
                exact hpre y (List.mem_cons_of_mem _ hy)
        · rw [show emacs_set_tty_loop settings (k + 1) (TtyStep.setFail e0 :: rest)
              = some (-1) from by simp [emacs_set_tty_loop, he]]
          constructor
          · intro _
            exact ⟨[], e0, rest, rfl, he, by simp, by simp⟩
          · intro _
            rfl
      | setOk rb =>
        by_cases hm : tty_match rb settings
        · rw [show emacs_set_tty_loop settings (k + 1) (TtyStep.setOk rb :: rest)
              = some 0 from by simp [emacs_set_tty_loop, hm]]
          constructor
          · intro h
            exact absurd h (by simp)
          · rintro ⟨pre, e, post, hdec, he', hlen, hpre⟩
            cases pre with
            | nil => simp at hdec
            | cons x pre' =>
              simp only [List.cons_append, List.cons.injEq] at hdec
              rcases hpre x (List.mem_cons_self _ _) with hr | ⟨rb', hrb, hmm⟩
              · rw [← hdec.1] at hr
                simp at hr
              · rw [← hdec.1] at hrb
                simp only [TtyStep.setOk.injEq] at hrb
                rw [← hrb] at hmm
                rw [hm] at hmm
                exact absurd hmm (by simp)
        · have hm' : tty_match rb settings = false := by simpa using hm
          rw [show emacs_set_tty_loop settings (k + 1) (TtyStep.setOk rb :: rest)
              = emacs_set_tty_loop settings k rest from by simp [emacs_set_tty_loop, hm'],
            ih k]
          constructor
          · rintro ⟨pre, e, post, hdec, he', hlen, hpre⟩
            refine ⟨TtyStep.setOk rb :: pre, e, post, by rw [hdec]; rfl, he', ?_, ?_⟩
            · simpa using Nat.succ_lt_succ hlen
            · intro x hx
              rcases List.mem_cons.mp hx with hx | hx
              · rw [hx]; exact Or.inr ⟨rb, rfl, hm'⟩
              · exact hpre x hx
          · rintro ⟨pre, e, post, hdec, he', hlen, hpre⟩
            cases pre with
            | nil => simp at hdec
            | cons x pre' =>
              simp only [List.cons_append, List.cons.injEq] at hdec
              obtain ⟨hx, hdec'⟩ := hdec
              refine ⟨pre', e, post, hdec', he', ?_, ?_⟩
              · have := hlen
                simp only [List.length_cons] at this
                omega
              · intro y hy
                exact hpre y (List.mem_cons_of_mem _ hy)

/-- C6: `emacs_set_tty` retries an interrupted `tcsetattr` (using up one of
its 10 bounded iterations), returns -1 at once on a non-`EINTR` failure,
returns 0 at once when the readback (`c_iflag`, `c_oflag`, `c_cflag`,
`c_lflag` and the control-character array) matches the requested settings,
retries on a mismatching readback, consumes at most 10 trace steps, and —
over any trace — returns -1 exactly when the underlying set call fails
with a non-`EINTR` error (after only retryable steps, within the bound);
in every other returning case it returns 0. -/
theorem c6_emacs_set_tty (settings : Termios) :
    (∀ (k : Nat) (rest : List TtyStep),
        emacs_set_tty_loop settings (k + 1) (TtyStep.setFail EINTR :: rest)
          = emacs_set_tty_loop settings k rest)
  ∧ (∀ (k : Nat) (rest : List TtyStep) (e : Errno), e ≠ EINTR →
        emacs_set_tty_loop settings (k + 1) (TtyStep.setFail e :: rest) = some (-1))
  ∧ (∀ (k : Nat) (rest : List TtyStep) (rb : Termios), tty_match rb settings = true →
        emacs_set_tty_loop settings (k + 1) (TtyStep.setOk rb :: rest) = some 0)
  ∧ (∀ (k : Nat) (rest : List TtyStep) (rb : Termios), tty_match rb settings = false →
        emacs_set_tty_loop settings (k + 1) (TtyStep.setOk rb :: rest)
          = emacs_set_tty_loop settings k rest)
  ∧ (∀ tr : List TtyStep, emacs_set_tty settings tr = emacs_set_tty settings (tr.take 10))
  ∧ (∀ tr : List TtyStep,
        emacs_set_tty settings tr = some (-1) ↔
          ∃ pre e post, tr = pre ++ TtyStep.setFail e :: post ∧ e ≠ EINTR ∧
            pre.length < 10 ∧ ∀ st ∈ pre, retryStep settings st)
  ∧ (∀ tr : List TtyStep,
        emacs_set_tty settings tr = some 0 ∨ emacs_set_tty settings tr = some (-1) ∨
        emacs_set_tty settings tr = none)
  ∧ (∀ nw : Termios, tty_match nw settings = true ↔
        nw.c_iflag = settings.c_iflag ∧ nw.c_oflag = settings.c_oflag ∧
        nw.c_cflag = settings.c_cflag ∧ nw.c_lflag = settings.c_lflag ∧
        nw.c_cc = settings.c_cc) := by
  refine ⟨?_, ?_, ?_, ?_, ?_, ?_, ?_, ?_⟩
  · intro k rest
    simp [emacs_set_tty_loop]
  · intro k rest e he
    simp [emacs_set_tty_loop, he]
  · intro k rest rb hm
    simp [emacs_set_tty_loop, hm]
  · intro k rest rb hm
    simp [emacs_set_tty_loop, hm]
  · exact fun tr => emacs_set_tty_loop_take settings 10 tr
  · exact fun tr => emacs_set_tty_loop_neg_iff settings tr 10
  · exact fun tr => emacs_set_tty_loop_cases settings 10 tr
  · intro nw
    simp [tty_match, and_assoc]

/-- Witness for `c6_emacs_set_tty` at concrete inputs (the all-zero
settings): a non-`EINTR` failure (error 7) yields -1, a matching readback
yields 0, a mismatching readback retries, and the -1 characterization
produces -1 on the one-failure trace. -/
theorem c6_emacs_set_tty_witness :
    emacs_set_tty_loop (Termios.mk 0 0 0 0 []) 10 [TtyStep.setFail 7] = some (-1)
  ∧ emacs_set_tty_loop (Termios.mk 0 0 0 0 []) 10
      [TtyStep.setOk (Termios.mk 0 0 0 0 [])] = some 0
  ∧ emacs_set_tty_loop (Termios.mk 0 0 0 0 []) 10 [TtyStep.setOk (Termios.mk 1 0 0 0 [])]
      = emacs_set_tty_loop (Termios.mk 0 0 0 0 []) 9 []
  ∧ emacs_set_tty (Termios.mk 0 0 0 0 []) [TtyStep.setFail 7] = some (-1) := by
  refine ⟨?_, ?_, ?_, ?_⟩
  · exact (c6_emacs_set_tty (Termios.mk 0 0 0 0 [])).2.1 9 [] 7 (by decide)
  · exact (c6_emacs_set_tty (Termios.mk 0 0 0 0 [])).2.2.1 9 [] (Termios.mk 0 0 0 0 [])
      (by decide)
  · exact (c6_emacs_set_tty (Termios.mk 0 0 0 0 [])).2.2.2.1 9 [] (Termios.mk 1 0 0 0 [])
      (by decide)
  · exact ((c6_emacs_set_tty (Termios.mk 0 0 0 0 [])).2.2.2.2.2.1 [TtyStep.setFail 7]).mpr
      ⟨[], 7, [], rfl, by decide, by decide, by simp⟩
